import Mathlib

/-!
Verification development for the FHEAP backend (src/backend/server.py).

Shallow-embedding conventions:
* Python floats are idealised as rationals; a decimal literal such as 0.003
  denotes the exact rational 3/1000.
* Python strings are lists of characters (PyStr); str.split, int(str),
  str(int) and the f-string formatting used by the backend are embedded
  below, character by character.
* Python int(float) truncates toward zero; pyTrunc embeds it.
* Random draws (random.randint, random.uniform, uuid.uuid4) are oracle
  parameters: every theorem quantifies over all possible draws.
* The MongoDB layer is modelled by taking fetched result lists as inputs and
  by recording the emitted database calls as explicit traces.
-/

abbrev PyStr := List Char

/-- Python int(float) truncation toward zero, on the rational model. -/
def pyTrunc (q : ℚ) : ℤ := q.num.tdiv q.den

/-! ### Characters and Python string helpers -/

/-- Numeric value of an ASCII digit character. -/
def digitToNat (c : Char) : ℕ := c.toNat - 48

/-- Test for an ASCII digit, as used by Python int() parsing. -/
def isAsciiDigit (c : Char) : Bool := decide (48 ≤ c.toNat) && decide (c.toNat ≤ 57)

/-- Python str.strip() whitespace characters (space, tab, LF, CR, VT, FF). -/
def isPySpace (c : Char) : Bool :=
  (c.toNat == 32) || (c.toNat == 9) || (c.toNat == 10) ||
  (c.toNat == 13) || (c.toNat == 11) || (c.toNat == 12)

/-- Decimal/hex digit printing with explicit fuel, mirroring repeated
divmod-by-base digit extraction; fuel is always taken large enough. -/
def natToBaseAux (b : ℕ) : ℕ → ℕ → PyStr → PyStr
  | 0, _, acc => acc
  | fuel + 1, n, acc =>
    if n < b then Nat.digitChar n :: acc
    else natToBaseAux b fuel (n / b) (Nat.digitChar (n % b) :: acc)

/-- Python str(n) for a natural number (decimal digits). -/
def natStr (n : ℕ) : PyStr := natToBaseAux 10 (n + 1) n []

/-- Python str(m) for an integer: optional minus sign and decimal digits. -/
def intStr (m : ℤ) : PyStr := if m < 0 then '-' :: natStr m.natAbs else natStr m.natAbs

/-- Python f-string {n:x} hexadecimal formatting of a natural number. -/
def hexStr (n : ℕ) : PyStr := natToBaseAux 16 (n + 1) n []

/-- Accumulated numeric value of a digit string, as computed by Python int(). -/
def digitsVal (cs : PyStr) : ℕ := cs.foldl (fun a c => 10 * a + digitToNat c) 0

/-- Parse a nonempty all-digit string; none models a ValueError. -/
def parseDigits (cs : PyStr) : Option ℕ :=
  if cs ≠ [] ∧ cs.all isAsciiDigit = true then some (digitsVal cs) else none

/-! ### Python str.strip and int() -/

/-- Python str.strip(): remove leading and trailing whitespace. -/
def pyStrip (s : PyStr) : PyStr :=
  ((s.dropWhile isPySpace).reverse.dropWhile isPySpace).reverse

/-- Python int(str): optional surrounding whitespace, optional sign, then a
nonempty run of decimal digits; none models a ValueError.  (Unicode digits
and the underscore digit separator never occur in this backend's strings and
are not modelled.) -/
def pyInt? (s : PyStr) : Option ℤ :=
  match pyStrip s with
  | [] => none
  | c :: rest =>
    if c = '-' then (parseDigits rest).map (fun n : ℕ => -(n : ℤ))
    else if c = '+' then (parseDigits rest).map (fun n : ℕ => (n : ℤ))
    else (parseDigits (c :: rest)).map (fun n : ℕ => (n : ℤ))

/-! ### Python str.split -/

/-- Python s.split(sep) for a single-character separator: splits at every
occurrence, keeping empty parts; the empty string yields one empty part. -/
def pySplit (sep : Char) : PyStr → List PyStr
  | [] => [[]]
  | c :: cs =>
    match pySplit sep cs with
    | [] => [[]]
    | p :: ps => if c = sep then [] :: p :: ps else (c :: p) :: ps

/-! ### FHE simulation helpers (server.py lines 110-150) -/

/-- simulate_fhe_encrypt from server.py: the f-string
fhe_enc_{int(value * 1000000)}_{random.randint(1000, 9999)}; the random
suffix draw is the oracle parameter rsuf. -/
def simulate_fhe_encrypt (value : ℚ) (rsuf : ℕ) : PyStr :=
  "fhe_enc_".data ++ intStr (pyTrunc (value * 1000000)) ++ '_' :: natStr rsuf

/-- simulate_fhe_decrypt from server.py: split on underscores and, when there
are at least three parts and the third parses as an int, return it divided by
1000000.0; any failure (including the except branch) returns 0.0. -/
def simulate_fhe_decrypt (encrypted_value : PyStr) : ℚ :=
  let parts := pySplit '_' encrypted_value
  if 3 ≤ parts.length then
    match pyInt? (parts.getD 2 []) with
    | some n => (n : ℚ) / 1000000
    | none => 0
  else 0

/-- simulate_fhe_add from server.py. -/
def simulate_fhe_add (enc_a enc_b : PyStr) (rsuf : ℕ) : PyStr :=
  simulate_fhe_encrypt (simulate_fhe_decrypt enc_a + simulate_fhe_decrypt enc_b) rsuf

/-- simulate_fhe_sub from server.py (absolute difference of decryptions). -/
def simulate_fhe_sub (enc_a enc_b : PyStr) (rsuf : ℕ) : PyStr :=
  simulate_fhe_encrypt |simulate_fhe_decrypt enc_a - simulate_fhe_decrypt enc_b| rsuf

/-- simulate_fhe_gt from server.py: compare the decryptions. -/
def simulate_fhe_gt (enc_a enc_b : PyStr) : Bool :=
  decide (simulate_fhe_decrypt enc_a > simulate_fhe_decrypt enc_b)

/-- simulate_fhe_mul from server.py: multiply the decryption by a plaintext
multiplier and re-encrypt. -/
def simulate_fhe_mul (enc_value : PyStr) (multiplier : ℚ) (rsuf : ℕ) : PyStr :=
  simulate_fhe_encrypt (simulate_fhe_decrypt enc_value * multiplier) rsuf

/-! ### Data model (server.py pydantic models) -/

inductive ProtectionStatus
  | ACTIVE
  | INACTIVE
  | TRIGGERED
  | MONITORING
deriving DecidableEq, Inhabited

inductive DEXName
  | uniswap_v3
  | sushiswap
  | curve
  | balancer
deriving DecidableEq, Inhabited

/-- EncryptedPrice model; uuid and timestamp are oracle-provided values. -/
structure EncryptedPrice where
  id : PyStr
  dex_name : DEXName
  pool_address : PyStr
  token_pair : PyStr
  encrypted_price : PyStr
  timestamp : ℕ
  block_number : ℕ
deriving DecidableEq, Inhabited

structure ArbitrageOpportunity where
  id : PyStr
  pool_a : PyStr
  pool_b : PyStr
  dex_a : DEXName
  dex_b : DEXName
  token_pair : PyStr
  encrypted_spread : PyStr
  encrypted_threshold : PyStr
  opportunity_detected : Bool
  timestamp : ℕ
  protection_triggered : Bool
deriving DecidableEq, Inhabited

structure ProtectionEvent where
  id : PyStr
  arbitrage_opportunity_id : PyStr
  protection_status : ProtectionStatus
  encrypted_protection_fee : PyStr
  encrypted_mev_captured : PyStr
  tx_hash : Option PyStr
  gas_used : Option ℕ
  timestamp : ℕ
deriving DecidableEq, Inhabited

structure LPReward where
  id : PyStr
  lp_address : PyStr
  pool_id : PyStr
  encrypted_reward_amount : PyStr
  protection_event_id : PyStr
  distribution_tx_hash : Option PyStr
  claimed : Bool
  timestamp : ℕ
deriving DecidableEq, Inhabited

/-! ### Arbitrage calculation logic (server.py lines 152-180) -/

namespace ArbitrageCalculations

/-- calculate_encrypted_spread from server.py. -/
def calculate_encrypted_spread (price_a price_b : PyStr) (rsuf : ℕ) : PyStr :=
  simulate_fhe_sub price_a price_b rsuf

/-- has_arbitrage_opportunity from server.py. -/
def has_arbitrage_opportunity (spread threshold : PyStr) : Bool :=
  simulate_fhe_gt spread threshold

/-- calculate_protection_fee from server.py: fee rate is
min(0.003, decrypt(spread) * 0.1), the fee is the encrypted volume * rate,
capped at max_fee via simulate_fhe_gt. -/
def calculate_protection_fee (spread : PyStr) (volume : ℚ) (max_fee : PyStr) (rsuf : ℕ) : PyStr :=
  let fee_rate := min 0.003 (simulate_fhe_decrypt spread * 0.1)
  let protection_fee := simulate_fhe_encrypt (volume * fee_rate) rsuf
  if simulate_fhe_gt protection_fee max_fee then max_fee else protection_fee

/-- calculate_lp_rewards from server.py; the lp_share parameter defaults to
0.8 and the only call site uses the default, so it is fixed to 4/5 here. -/
def calculate_lp_rewards (captured_mev : PyStr) (rsuf : ℕ) : PyStr :=
  simulate_fhe_mul captured_mev (4/5) rsuf

end ArbitrageCalculations

/-! ### Opportunity detection (server.py lines 218-266) -/

/-- Oracle for the random draws made while detecting opportunities, indexed
by the position pair (i, j) being compared. -/
structure DetectRand where
  sufSpread : ℕ × ℕ → ℕ
  sufThreshold : ℕ × ℕ → ℕ
  oppId : ℕ × ℕ → PyStr
  oppTs : ℕ × ℕ → ℕ

/-- Loop body of detect_arbitrage_opportunities for one index pair (i, j):
compare the two samples and return the flagged opportunity record, if any. -/
def comparePair (R : DetectRand) (token_pair : PyStr) (latest : List EncryptedPrice)
    (i j : ℕ) : List ArbitrageOpportunity :=
  let price_a := latest.getD i default
  let price_b := latest.getD j default
  if price_a.dex_name ≠ price_b.dex_name then
    let spread := ArbitrageCalculations.calculate_encrypted_spread
      price_a.encrypted_price price_b.encrypted_price (R.sufSpread (i, j))
    let threshold := simulate_fhe_encrypt
      (simulate_fhe_decrypt price_a.encrypted_price * 0.001) (R.sufThreshold (i, j))
    if ArbitrageCalculations.has_arbitrage_opportunity spread threshold then
      [{ id := R.oppId (i, j)
         pool_a := price_a.pool_address
         pool_b := price_b.pool_address
         dex_a := price_a.dex_name
         dex_b := price_b.dex_name
         token_pair := token_pair
         encrypted_spread := spread
         encrypted_threshold := threshold
         opportunity_detected := true
         timestamp := R.oppTs (i, j)
         protection_triggered := false }]
    else []
  else []

/-- detect_arbitrage_opportunities from server.py, as a pure function of the
fetched list of most recent price samples: the early return when fewer than
two samples were fetched, then the nested loops for i in range(n), for j in
range(i+1, n).  The returned list collects the opportunity records inserted
into the database, in insertion order. -/
def detect_arbitrage_opportunities (R : DetectRand) (token_pair : PyStr)
    (latest : List EncryptedPrice) : List ArbitrageOpportunity :=
  if latest.length < 2 then []
  else
    (List.range latest.length).flatMap fun i =>
      (List.range' (i + 1) (latest.length - (i + 1))).flatMap fun j =>
        comparePair R token_pair latest i j

/-! Specification-side reformulation for claim C2, following the spec words:
every unordered pair of fetched samples is considered, and a record is made
exactly when the venues differ and the decrypted spread strictly exceeds the
decrypted threshold. -/

/-- All index pairs i < j < n, in the order the nested loops visit them. -/
def specPairs (n : ℕ) : List (ℕ × ℕ) :=
  (List.range n).flatMap fun i =>
    (List.range' (i + 1) (n - (i + 1))).map fun j => (i, j)

/-- Spec-side flagging predicate: distinct venues and strict greater-than on
the decrypted spread and threshold values. -/
def specFlag (R : DetectRand) (latest : List EncryptedPrice) (ij : ℕ × ℕ) : Bool :=
  let price_a := latest.getD ij.1 default
  let price_b := latest.getD ij.2 default
  let spread := ArbitrageCalculations.calculate_encrypted_spread
    price_a.encrypted_price price_b.encrypted_price (R.sufSpread ij)
  let threshold := simulate_fhe_encrypt
    (simulate_fhe_decrypt price_a.encrypted_price * 0.001) (R.sufThreshold ij)
  decide (price_a.dex_name ≠ price_b.dex_name) &&
    decide (simulate_fhe_decrypt spread > simulate_fhe_decrypt threshold)

/-- Spec-side record builder for a flagged pair. -/
def mkOpportunity (R : DetectRand) (token_pair : PyStr) (latest : List EncryptedPrice)
    (ij : ℕ × ℕ) : ArbitrageOpportunity :=
  let price_a := latest.getD ij.1 default
  let price_b := latest.getD ij.2 default
  let spread := ArbitrageCalculations.calculate_encrypted_spread
    price_a.encrypted_price price_b.encrypted_price (R.sufSpread ij)
  let threshold := simulate_fhe_encrypt
    (simulate_fhe_decrypt price_a.encrypted_price * 0.001) (R.sufThreshold ij)
  { id := R.oppId ij
    pool_a := price_a.pool_address
    pool_b := price_b.pool_address
    dex_a := price_a.dex_name
    dex_b := price_b.dex_name
    token_pair := token_pair
    encrypted_spread := spread
    encrypted_threshold := threshold
    opportunity_detected := true
    timestamp := R.oppTs ij
    protection_triggered := false }

/-! ### Protection triggering and LP reward distribution
(server.py lines 268-332) -/

/-- Oracle for the random draws made by trigger_protection and
distribute_lp_rewards: encryption suffixes, uuids, timestamps, the
transaction hashes, gas, and per-reward draws indexed by loop position. -/
structure TriggerRand where
  sufMaxFee : ℕ
  sufFee : ℕ
  sufMev : ℕ
  eventId : PyStr
  eventTs : ℕ
  txHash : ℕ
  gasUsed : ℕ
  sufLpTotal : ℕ
  sufPerLp : ℕ
  lpAddr : ℕ → ℕ
  poolNum : ℕ → ℕ
  rewardId : ℕ → PyStr
  distTx : ℕ → ℕ
  rewardTs : ℕ → ℕ

/-- Python f-string 0x{n:x} used for addresses and transaction hashes. -/
def hexAddr (n : ℕ) : PyStr := '0' :: 'x' :: hexStr n

/-- distribute_lp_rewards from server.py: 80% of the captured MEV, split
equally over the five synthetic LP addresses (1.0/len(lp_addresses) = 1/5);
one LPReward record is inserted per address, all sharing the same encrypted
reward amount and referencing the protection event id. -/
def distribute_lp_rewards (R : TriggerRand) (protection_event : ProtectionEvent) :
    List LPReward :=
  let lp_reward_total := ArbitrageCalculations.calculate_lp_rewards
    protection_event.encrypted_mev_captured R.sufLpTotal
  let reward_per_lp := simulate_fhe_mul lp_reward_total (1/5) R.sufPerLp
  (List.range 5).map fun k =>
    { id := R.rewardId k
      lp_address := hexAddr (R.lpAddr k)
      pool_id := "pool_".data ++ natStr (R.poolNum k)
      encrypted_reward_amount := reward_per_lp
      protection_event_id := protection_event.id
      distribution_tx_hash := some (hexAddr (R.distTx k))
      claimed := false
      timestamp := R.rewardTs k }

/-- trigger_protection from server.py: volume 100000, max fee the encryption
of 3000, fee from calculate_protection_fee, captured MEV the re-encrypted
spread times volume; the protection event is inserted and then the LP reward
records are distributed.  The returned pair collects the inserted event and
reward records. -/
def trigger_protection (R : TriggerRand) (opportunity : ArbitrageOpportunity) :
    ProtectionEvent × List LPReward :=
  let volume : ℚ := 100000
  let max_fee := simulate_fhe_encrypt 3000 R.sufMaxFee
  let protection_fee := ArbitrageCalculations.calculate_protection_fee
    opportunity.encrypted_spread volume max_fee R.sufFee
  let mev_captured := simulate_fhe_mul opportunity.encrypted_spread volume R.sufMev
  let protection_event : ProtectionEvent :=
    { id := R.eventId
      arbitrage_opportunity_id := opportunity.id
      protection_status := ProtectionStatus.TRIGGERED
      encrypted_protection_fee := protection_fee
      encrypted_mev_captured := mev_captured
      tx_hash := some (hexAddr R.txHash)
      gas_used := some R.gasUsed
      timestamp := R.eventTs }
  (protection_event, distribute_lp_rewards R protection_event)

/-! ### Price monitoring loop (server.py lines 184-216) -/

structure Pool where
  dex : DEXName
  address : PyStr
  pair : PyStr
deriving DecidableEq

/-- The fixed pool list from monitor_prices. -/
def pools : List Pool :=
  [ ⟨DEXName.uniswap_v3, "0x88e6A0c2dDD26FEEb64F039a2c41296FcB3f5640".data, "ETH/USDC".data⟩,
    ⟨DEXName.sushiswap, "0x397FF1542f962076d0BFE58eA045FfA2d347ACa0".data, "ETH/USDC".data⟩,
    ⟨DEXName.curve, "0xA0b86a33E6417efF66b9b4A3e0C6e31d5F5dd9C7".data, "ETH/USDC".data⟩ ]

/-- Oracle for the draws of one monitor iteration, indexed by pool position:
random.uniform(-50, 50), the encryption suffix, uuid, timestamp and
random block number. -/
structure MonitorRand where
  unif : ℕ → ℚ
  sufPrice : ℕ → ℕ
  priceId : ℕ → PyStr
  priceTs : ℕ → ℕ
  blockNum : ℕ → ℕ

/-- A Python exception value. -/
inductive PyExc
  | err (msg : PyStr)
deriving DecidableEq, Inhabited

/-- Observable events of one monitor iteration: a price insert or an
invocation of detect_arbitrage_opportunities for a trading pair. -/
inductive MonitorEvent
  | insertPrice (p : EncryptedPrice)
  | detectCall (token_pair : PyStr)
deriving DecidableEq

/-- Body of one monitor iteration over the (indexed) pool list.  The fault
oracle says whether the k-th database insert raises; a raise aborts the rest
of the iteration (the price record is not persisted and detection is not
invoked).  detect_arbitrage_opportunities cannot raise: it catches all its
own exceptions (server.py lines 265-266). -/
def monitorGo (R : MonitorRand) (fault : ℕ → Option PyExc) :
    List (ℕ × Pool) → List MonitorEvent × Option PyExc
  | [] => ([], none)
  | (k, pool) :: rest =>
    match fault k with
    | some e => ([], some e)
    | none =>
      let base_price : ℚ := 2000 + R.unif k
      let encrypted_price := simulate_fhe_encrypt base_price (R.sufPrice k)
      let price_data : EncryptedPrice :=
        { id := R.priceId k
          dex_name := pool.dex
          pool_address := pool.address
          token_pair := pool.pair
          encrypted_price := encrypted_price
          timestamp := R.priceTs k
          block_number := R.blockNum k }
      let next := monitorGo R fault rest
      (MonitorEvent.insertPrice price_data :: MonitorEvent.detectCall pool.pair :: next.1,
        next.2)

/-- The try-block of one iteration of the while True loop: events emitted so
far and the exception that escaped the block, if any. -/
def monitor_iteration_body (R : MonitorRand) (fault : ℕ → Option PyExc) :
    List MonitorEvent × Option PyExc :=
  monitorGo R fault pools.enum

/-- One full iteration of monitor_prices including its except handler: the
emitted events together with the sleep duration chosen next (5 seconds after
a clean iteration, 10 seconds after a logged error); no exception escapes. -/
def monitor_iteration_step (R : MonitorRand) (fault : ℕ → Option PyExc) :
    List MonitorEvent × ℕ :=
  match (monitor_iteration_body R fault).2 with
  | some _ => ((monitor_iteration_body R fault).1, 10)
  | none => ((monitor_iteration_body R fault).1, 5)

/-- The fault-free straight-line path of one monitor iteration. -/
def monitor_iteration (R : MonitorRand) : List MonitorEvent :=
  (monitor_iteration_body R (fun _ => none)).1

/-- The unbounded while True loop, one entry per iteration index: iteration n
uses the n-th draws and the n-th fault pattern.  Totality in n models that
the loop always reaches its next iteration. -/
def monitor_loop_sleep (Rs : ℕ → MonitorRand) (faults : ℕ → ℕ → Option PyExc)
    (n : ℕ) : ℕ :=
  (monitor_iteration_step (Rs n) (faults n)).2

/-! ### Database call traces (for the immutability claim) -/

inductive Coll
  | encrypted_prices
  | arbitrage_opportunities
  | protection_events
  | lp_rewards
deriving DecidableEq

/-- The kinds of motor/pymongo collection operations; update and delete
operations are included in the vocabulary so that their absence from every
trace is meaningful. -/
inductive DBKind
  | insertOne
  | find
  | countDocuments
  | updateOne
  | deleteOne
  | deleteMany
deriving DecidableEq

structure DBCall where
  coll : Coll
  kind : DBKind
deriving DecidableEq

/-- Database calls of trigger_protection including distribute_lp_rewards:
one protection event insert followed by five reward inserts. -/
def trigger_dbtrace : List DBCall :=
  ⟨Coll.protection_events, DBKind.insertOne⟩ ::
    List.replicate 5 ⟨Coll.lp_rewards, DBKind.insertOne⟩

/-- Database calls of detect_arbitrage_opportunities: the price query, then,
per flagged opportunity, one opportunity insert followed by the protection
chain inserts. -/
def detect_dbtrace (R : DetectRand) (tp : PyStr) (latest : List EncryptedPrice) :
    List DBCall :=
  ⟨Coll.encrypted_prices, DBKind.find⟩ ::
    (detect_arbitrage_opportunities R tp latest).flatMap fun _ =>
      ⟨Coll.arbitrage_opportunities, DBKind.insertOne⟩ :: trigger_dbtrace

/-- Database calls of one monitor iteration: per pool one price insert and
the calls of the detection it invokes; fetch gives the list the detection
query returns at that point. -/
def monitor_dbtrace (R : MonitorRand) (Rd : ℕ → DetectRand)
    (fetch : ℕ → List EncryptedPrice) : List DBCall :=
  pools.enum.flatMap fun kp =>
    ⟨Coll.encrypted_prices, DBKind.insertOne⟩ ::
      detect_dbtrace (Rd kp.1) kp.2.pair (fetch kp.1)

/-- Database calls of the GET /api/dashboard handler. -/
def get_dashboard_dbtrace : List DBCall :=
  [ ⟨Coll.protection_events, DBKind.find⟩,
    ⟨Coll.protection_events, DBKind.countDocuments⟩,
    ⟨Coll.protection_events, DBKind.countDocuments⟩,
    ⟨Coll.arbitrage_opportunities, DBKind.countDocuments⟩ ]

/-- Database calls of the GET /api/prices handler. -/
def get_latest_prices_dbtrace : List DBCall := [ ⟨Coll.encrypted_prices, DBKind.find⟩ ]

/-- Database calls of the GET /api/arbitrage-opportunities handler. -/
def get_arbitrage_opportunities_dbtrace : List DBCall :=
  [ ⟨Coll.arbitrage_opportunities, DBKind.find⟩ ]

/-- Database calls of the GET /api/protection-events handler. -/
def get_protection_events_dbtrace : List DBCall :=
  [ ⟨Coll.protection_events, DBKind.find⟩ ]

/-- Database calls of the GET /api/lp-rewards/{lp_address} handler. -/
def get_lp_rewards_dbtrace : List DBCall := [ ⟨Coll.lp_rewards, DBKind.find⟩ ]

/-- Database calls of the GET /api/statistics handler. -/
def get_statistics_dbtrace : List DBCall :=
  [ ⟨Coll.arbitrage_opportunities, DBKind.countDocuments⟩,
    ⟨Coll.arbitrage_opportunities, DBKind.countDocuments⟩,
    ⟨Coll.protection_events, DBKind.countDocuments⟩,
    ⟨Coll.protection_events, DBKind.countDocuments⟩ ]

/-- Being a pure insert or read operation (no mutation, no deletion). -/
def dbInsertOrRead (op : DBCall) : Prop :=
  op.kind = DBKind.insertOne ∨ op.kind = DBKind.find ∨ op.kind = DBKind.countDocuments

instance (op : DBCall) : Decidable (dbInsertOrRead op) := by
  rw [dbInsertOrRead]; infer_instance

/-! ### HTTP handler error boundary (server.py lines 336-443) -/

structure HTTPException where
  status_code : ℕ
  detail : PyStr
deriving DecidableEq

/-- The uniform try/except shape of every api_router handler: a successful
body value is returned as-is, and any exception raised inside the body is
logged and replaced by HTTPException(500, "Internal server error"). -/
def handler_boundary {α : Type} (body : Except PyExc α) : Except HTTPException α :=
  match body with
  | Except.ok v => Except.ok v
  | Except.error _ => Except.error ⟨500, "Internal server error".data⟩

/-- GET /api/prices with the database fetch outcome as input. -/
def get_latest_prices (dbRes : Except PyExc (List EncryptedPrice)) :
    Except HTTPException (List EncryptedPrice) :=
  handler_boundary dbRes

/-! ### Concrete oracle instantiations (used by counterexamples and
witnesses) -/

def dRand0 : DetectRand := ⟨fun _ => 0, fun _ => 0, fun _ => [], fun _ => 0⟩

def mRand0 : MonitorRand := ⟨fun _ => 0, fun _ => 0, fun _ => [], fun _ => 0, fun _ => 0⟩

def tRand0 : TriggerRand :=
  ⟨0, 0, 0, [], 0, 0, 0, 0, 0, fun _ => 0, fun _ => 0, fun _ => [], fun _ => 0, fun _ => 0⟩

/-- A flagged opportunity used as concrete input. -/
def oppExample : ArbitrageOpportunity :=
  { id := ['o']
    pool_a := ['a']
    pool_b := ['b']
    dex_a := DEXName.uniswap_v3
    dex_b := DEXName.sushiswap
    token_pair := "ETH/USDC".data
    encrypted_spread := "fhe_enc_2500_1111".data
    encrypted_threshold := "fhe_enc_2000_2222".data
    opportunity_detected := true
    timestamp := 0
    protection_triggered := false }

/-- Draws of a first run of the protection chain (tx hash draw 10^63). -/
def triggerRandA : TriggerRand :=
  ⟨1000, 1001, 1002, ['e'], 0, 10 ^ 63, 200000, 1003, 1004,
    fun k => 10 ^ 39 + k, fun _ => 1, fun _ => ['r'], fun _ => 10 ^ 63, fun _ => 0⟩

/-- Draws of a second run: identical except for the tx hash draw. -/
def triggerRandB : TriggerRand :=
  ⟨1000, 1001, 1002, ['e'], 0, 10 ^ 63 + 1, 200000, 1003, 1004,
    fun k => 10 ^ 39 + k, fun _ => 1, fun _ => ['r'], fun _ => 10 ^ 63, fun _ => 0⟩

/-! ### Lemmas and theorems -/
lemma pyTrunc_eq_floor (q : ℚ) (h : 0 ≤ q) : pyTrunc q = ⌊q⌋ := by
  have hnum : 0 ≤ q.num := Rat.num_nonneg.mpr h
  have hden : (0 : ℤ) ≤ (q.den : ℤ) := Int.natCast_nonneg q.den
  rw [pyTrunc, Int.tdiv_eq_ediv hnum hden, Rat.floor_def]

lemma pyTrunc_eq_ceil (q : ℚ) (h : q < 0) : pyTrunc q = ⌈q⌉ := by
  have hnum : q.num < 0 := by
    by_contra hc
    push_neg at hc
    exact absurd (Rat.num_nonneg.mp hc) (not_le.mpr h)
  have hden : (0 : ℤ) ≤ (q.den : ℤ) := Int.natCast_nonneg q.den
  have h1 : q.num.tdiv q.den = -((-q.num).tdiv q.den) := by
    rw [Int.neg_tdiv, neg_neg]
  have h2 : (-q.num).tdiv q.den = (-q.num) / (q.den : ℤ) :=
    Int.tdiv_eq_ediv (by omega) hden
  have h3 : ⌊-q⌋ = (-q.num) / (q.den : ℤ) := by
    rw [Rat.floor_def, Rat.num_neg_eq_neg_num, Rat.den_neg_eq_den]
  rw [pyTrunc, h1, h2, ← h3, Int.floor_neg, neg_neg]

lemma pyTrunc_intCast (m : ℤ) : pyTrunc ((m : ℚ)) = m := by
  rw [pyTrunc, Rat.num_intCast, Rat.den_intCast]
  simp

lemma pyTrunc_cast_le (q : ℚ) (h : 0 ≤ q) : (pyTrunc q : ℚ) ≤ q := by
  rw [pyTrunc_eq_floor q h]
  exact Int.floor_le q

lemma pyTrunc_cast_nonpos (q : ℚ) (h : q < 0) : (pyTrunc q : ℚ) ≤ 0 := by
  rw [pyTrunc_eq_ceil q h]
  have : ⌈q⌉ ≤ (0 : ℤ) := Int.ceil_le.mpr (by exact_mod_cast h.le)
  exact_mod_cast this

lemma not_pySpace_of_digit {c : Char} (h : isAsciiDigit c = true) : isPySpace c = false := by
  simp only [isAsciiDigit, Bool.and_eq_true, decide_eq_true_eq] at h
  simp only [isPySpace, Bool.or_eq_false_iff, beq_eq_false_iff_ne, ne_eq]
  omega

lemma natToBaseAux_append (b : ℕ) (hb : 2 ≤ b) :
    ∀ fuel n acc, n < fuel →
      natToBaseAux b fuel n acc = natToBaseAux b (n + 1) n [] ++ acc := by
  intro fuel
  induction fuel using Nat.strong_induction_on with
  | _ fuel ih =>
    intro n acc hn
    match fuel with
    | 0 => omega
    | f + 1 =>
      by_cases hsmall : n < b
      · simp [natToBaseAux, hsmall]
      · have hb0 : 0 < n := by omega
        have hdiv : n / b < n := Nat.div_lt_self hb0 (by omega)
        have hstep : ∀ acc0 : PyStr,
            natToBaseAux b (f + 1) n acc0
              = natToBaseAux b f (n / b) (Nat.digitChar (n % b) :: acc0) := by
          intro acc0
          simp [natToBaseAux, hsmall]
        rw [hstep acc]
        have hf : n / b < f := by omega
        rw [ih f (by omega) (n / b) _ hf]
        have hrhs : natToBaseAux b (n + 1) n []
            = natToBaseAux b n (n / b) [Nat.digitChar (n % b)] := by
          simp [natToBaseAux, hsmall]
        rw [hrhs]
        have hf2 : n / b < n := hdiv
        rw [ih n (by omega) (n / b) _ hf2]
        simp

lemma natStr_small {n : ℕ} (h : n < 10) : natStr n = [Nat.digitChar n] := by
  simp [natStr, natToBaseAux, h]

lemma natStr_step {n : ℕ} (h : 10 ≤ n) :
    natStr n = natStr (n / 10) ++ [Nat.digitChar (n % 10)] := by
  have h1 : natStr n = natToBaseAux 10 n (n / 10) [Nat.digitChar (n % 10)] := by
    rw [natStr]
    simp [natToBaseAux, Nat.not_lt.mpr h]
  have hdiv : n / 10 < n := Nat.div_lt_self (by omega) (by omega)
  rw [h1, natToBaseAux_append 10 (by omega) n (n / 10) _ hdiv, natStr]

lemma digitChar_isDigit {d : ℕ} (h : d < 10) : isAsciiDigit (Nat.digitChar d) = true := by
  interval_cases d <;> decide

lemma digitToNat_digitChar {d : ℕ} (h : d < 10) : digitToNat (Nat.digitChar d) = d := by
  interval_cases d <;> decide

lemma natStr_ne_nil (n : ℕ) : natStr n ≠ [] := by
  by_cases h : n < 10
  · rw [natStr_small h]; simp
  · rw [natStr_step (by omega)]; simp

lemma natStr_all_digits (n : ℕ) : ∀ c ∈ natStr n, isAsciiDigit c = true := by
  induction n using Nat.strong_induction_on with
  | _ n ih =>
    by_cases h : n < 10
    · rw [natStr_small h]
      intro c hc
      rw [List.mem_singleton] at hc
      exact hc ▸ digitChar_isDigit h
    · rw [natStr_step (by omega)]
      intro c hc
      rw [List.mem_append] at hc
      rcases hc with hc | hc
      · exact ih (n / 10) (Nat.div_lt_self (by omega) (by omega)) c hc
      · rw [List.mem_singleton] at hc
        exact hc ▸ digitChar_isDigit (Nat.mod_lt n (by omega))

lemma digitsVal_natStr (n : ℕ) : digitsVal (natStr n) = n := by
  induction n using Nat.strong_induction_on with
  | _ n ih =>
    by_cases h : n < 10
    · rw [natStr_small h]
      simp [digitsVal, digitToNat_digitChar h]
    · rw [natStr_step (by omega)]
      rw [digitsVal, List.foldl_append]
      have hdiv : n / 10 < n := Nat.div_lt_self (by omega) (by omega)
      have hval : List.foldl (fun a c => 10 * a + digitToNat c) 0 (natStr (n / 10)) = n / 10 :=
        ih (n / 10) hdiv
      rw [hval]
      simp only [List.foldl_cons, List.foldl_nil]
      rw [digitToNat_digitChar (Nat.mod_lt n (by omega))]
      omega

lemma parseDigits_natStr (n : ℕ) : parseDigits (natStr n) = some n := by
  rw [parseDigits, if_pos, digitsVal_natStr]
  refine ⟨natStr_ne_nil n, ?_⟩
  rw [List.all_eq_true]
  exact natStr_all_digits n

lemma dropWhile_eq_self_of_all {p : Char → Bool} {s : PyStr}
    (h : ∀ c ∈ s, p c = false) : s.dropWhile p = s := by
  cases s with
  | nil => rfl
  | cons c cs => rw [List.dropWhile_cons, h c (List.mem_cons_self c cs)]; simp

lemma pyStrip_eq_self {s : PyStr} (h : ∀ c ∈ s, isPySpace c = false) : pyStrip s = s := by
  rw [pyStrip, dropWhile_eq_self_of_all h,
    dropWhile_eq_self_of_all (fun c hc => h c (List.mem_reverse.mp hc)), List.reverse_reverse]

lemma intStr_chars (m : ℤ) :
    ∀ c ∈ intStr m, c = '-' ∨ isAsciiDigit c = true := by
  intro c hc
  rw [intStr] at hc
  by_cases hm : m < 0
  · rw [if_pos hm] at hc
    rcases List.mem_cons.mp hc with h | h
    · exact Or.inl h
    · exact Or.inr (natStr_all_digits _ c h)
  · rw [if_neg hm] at hc
    exact Or.inr (natStr_all_digits _ c hc)

lemma pyStrip_intStr (m : ℤ) : pyStrip (intStr m) = intStr m := by
  refine pyStrip_eq_self ?_
  intro c hc
  rcases intStr_chars m c hc with h | h
  · rw [h]; decide
  · exact not_pySpace_of_digit h

lemma pyInt?_intStr (m : ℤ) : pyInt? (intStr m) = some m := by
  rw [pyInt?]
  by_cases hm : m < 0
  · have hform : intStr m = '-' :: natStr m.natAbs := by rw [intStr, if_pos hm]
    rw [pyStrip_intStr, hform]
    simp only [reduceIte, parseDigits_natStr, Option.map_some']
    rw [Int.ofNat_natAbs_of_nonpos hm.le, neg_neg]
  · have hform : intStr m = natStr m.natAbs := by rw [intStr, if_neg hm]
    rw [pyStrip_intStr, hform]
    obtain ⟨c, rest, hcr⟩ : ∃ c rest, natStr m.natAbs = c :: rest := by
      cases h : natStr m.natAbs with
      | nil => exact absurd h (natStr_ne_nil _)
      | cons c rest => exact ⟨c, rest, rfl⟩
    have hcdig : isAsciiDigit c = true := by
      refine natStr_all_digits m.natAbs c ?_
      rw [hcr]; exact List.mem_cons_self c rest
    have hcm : c ≠ '-' := by
      intro he
      rw [he] at hcdig
      exact absurd hcdig (by decide)
    have hcp : c ≠ '+' := by
      intro he
      rw [he] at hcdig
      exact absurd hcdig (by decide)
    rw [hcr]
    simp only [hcm, hcp, if_false, ← hcr, parseDigits_natStr, Option.map_some']
    rw [Int.natAbs_of_nonneg (not_lt.mp hm)]

lemma pySplit_ne_nil (sep : Char) (s : PyStr) : pySplit sep s ≠ [] := by
  induction s with
  | nil => simp [pySplit]
  | cons c cs ih =>
    rw [pySplit]
    cases h : pySplit sep cs with
    | nil => exact absurd h ih
    | cons p ps => by_cases hc : c = sep <;> simp [hc]

lemma pySplit_append (sep : Char) (s1 s2 : PyStr) (h : sep ∉ s1) :
    pySplit sep (s1 ++ sep :: s2) = s1 :: pySplit sep s2 := by
  induction s1 with
  | nil =>
    rw [List.nil_append, pySplit]
    cases hs : pySplit sep s2 with
    | nil => exact absurd hs (pySplit_ne_nil sep s2)
    | cons p ps => simp
  | cons c cs ih =>
    have hc : ¬(c = sep) := fun e => h (e ▸ List.mem_cons_self c cs)
    have h2 : sep ∉ cs := fun hm => h (List.mem_cons_of_mem c hm)
    rw [List.cons_append, pySplit, ih h2]
    simp [hc]

lemma pySplit_no_sep (sep : Char) (s : PyStr) (h : sep ∉ s) : pySplit sep s = [s] := by
  induction s with
  | nil => rfl
  | cons c cs ih =>
    have hc : ¬(c = sep) := fun e => h (e ▸ List.mem_cons_self c cs)
    have h2 : sep ∉ cs := fun hm => h (List.mem_cons_of_mem c hm)
    rw [pySplit, ih h2]
    simp [hc]

lemma underscore_not_digit : isAsciiDigit '_' = false := by decide

lemma underscore_notin_natStr (n : ℕ) : '_' ∉ natStr n := by
  intro h
  have := natStr_all_digits n '_' h
  rw [underscore_not_digit] at this
  exact Bool.false_ne_true this

lemma underscore_notin_intStr (m : ℤ) : '_' ∉ intStr m := by
  intro h
  rcases intStr_chars m '_' h with h1 | h1
  · exact absurd h1 (by decide)
  · rw [underscore_not_digit] at h1
    exact Bool.false_ne_true h1

lemma pySplit_encrypt (value : ℚ) (rsuf : ℕ) :
    pySplit '_' (simulate_fhe_encrypt value rsuf)
      = [ "fhe".data, "enc".data, intStr (pyTrunc (value * 1000000)), natStr rsuf] := by
  have hshape : simulate_fhe_encrypt value rsuf
      = "fhe".data ++ '_' :: ( "enc".data ++ '_' ::
          (intStr (pyTrunc (value * 1000000)) ++ '_' :: natStr rsuf)) := by
    simp [simulate_fhe_encrypt]
  rw [hshape]
  rw [pySplit_append '_' _ _ (by decide)]
  rw [pySplit_append '_' _ _ (by decide)]
  rw [pySplit_append '_' _ _ (underscore_notin_intStr _)]
  rw [pySplit_no_sep '_' _ (underscore_notin_natStr _)]

/-- Central evaluation lemma: decrypting a fresh encryption yields the value
truncated toward zero at six decimal places, independently of the random
four-digit suffix. -/
lemma dec_enc (value : ℚ) (rsuf : ℕ) :
    simulate_fhe_decrypt (simulate_fhe_encrypt value rsuf)
      = (pyTrunc (value * 1000000) : ℚ) / 1000000 := by
  rw [simulate_fhe_decrypt]
  simp only [pySplit_encrypt]
  norm_num [pyInt?_intStr]

/-- Every decrypted value is an integer number of millionths. -/
lemma decrypt_mul_million (s : PyStr) :
    ∃ k : ℤ, simulate_fhe_decrypt s * 1000000 = (k : ℚ) := by
  rw [simulate_fhe_decrypt]
  by_cases h : 3 ≤ (pySplit '_' s).length
  · rw [if_pos h]
    cases hp : pyInt? ((pySplit '_' s).getD 2 []) with
    | none => exact ⟨0, by norm_num⟩
    | some n =>
      refine ⟨n, ?_⟩
      field_simp
  · rw [if_neg h]
    exact ⟨0, by norm_num⟩

lemma comparePair_eq (R : DetectRand) (tp : PyStr) (latest : List EncryptedPrice)
    (i j : ℕ) :
    comparePair R tp latest i j
      = if specFlag R latest (i, j) then [mkOpportunity R tp latest (i, j)] else [] := by
  rw [comparePair, specFlag, mkOpportunity]
  simp only [ArbitrageCalculations.has_arbitrage_opportunity, simulate_fhe_gt,
    Bool.and_eq_true, decide_eq_true_eq, gt_iff_lt, ne_eq]
  split_ifs <;> first | rfl | tauto

lemma flatMap_ite_singleton {α β : Type} (l : List α) (p : α → Bool) (f : α → β) :
    (l.flatMap fun x => if p x then [f x] else []) = (l.filter p).map f := by
  induction l with
  | nil => rfl
  | cons x xs ih =>
    by_cases h : p x <;> simp [List.filter_cons, h, ih]

lemma range5_map_getD {β : Type} [Inhabited β] (f : ℕ → β) (k : ℕ) (hk : k < 5) :
    ((List.range 5).map f).getD k default = f k := by
  interval_cases k <;> rfl

lemma dec_calc_protection_fee (spread max_fee : PyStr) (v : ℚ) (r : ℕ) :
    simulate_fhe_decrypt (ArbitrageCalculations.calculate_protection_fee spread v max_fee r)
      = if simulate_fhe_decrypt max_fee
            < (pyTrunc (v * min 0.003 (simulate_fhe_decrypt spread * 0.1) * 1000000) : ℚ)
                / 1000000
        then simulate_fhe_decrypt max_fee
        else (pyTrunc (v * min 0.003 (simulate_fhe_decrypt spread * 0.1) * 1000000) : ℚ)
                / 1000000 := by
  rw [ArbitrageCalculations.calculate_protection_fee]
  simp only [apply_ite simulate_fhe_decrypt, simulate_fhe_gt, gt_iff_lt,
    decide_eq_true_eq, dec_enc]

lemma dec_mul_100000 (s : PyStr) (k : ℤ) (hk : simulate_fhe_decrypt s * 1000000 = (k : ℚ))
    (r1 : ℕ) :
    simulate_fhe_decrypt (simulate_fhe_mul s 100000 r1) = ((100000 * k : ℤ) : ℚ) / 1000000 := by
  rw [simulate_fhe_mul, dec_enc]
  have h : simulate_fhe_decrypt s * 100000 * 1000000 = ((100000 * k : ℤ) : ℚ) := by
    push_cast
    linear_combination (100000 : ℚ) * hk
  rw [h, pyTrunc_intCast]

lemma reward_chain_value (s : PyStr) (r1 r2 r3 : ℕ) :
    simulate_fhe_decrypt
        (simulate_fhe_mul (simulate_fhe_mul (simulate_fhe_mul s 100000 r1) (4/5) r2) (1/5) r3)
      = 4/5 * simulate_fhe_decrypt (simulate_fhe_mul s 100000 r1) / 5 := by
  obtain ⟨k, hk⟩ := decrypt_mul_million s
  have h1 := dec_mul_100000 s k hk r1
  have h2 : simulate_fhe_decrypt (simulate_fhe_mul (simulate_fhe_mul s 100000 r1) (4/5) r2)
      = ((80000 * k : ℤ) : ℚ) / 1000000 := by
    rw [simulate_fhe_mul, dec_enc, h1]
    have h : ((100000 * k : ℤ) : ℚ) / 1000000 * (4/5) * 1000000 = ((80000 * k : ℤ) : ℚ) := by
      push_cast
      ring
    rw [h, pyTrunc_intCast]
  have h3 : simulate_fhe_decrypt
        (simulate_fhe_mul (simulate_fhe_mul (simulate_fhe_mul s 100000 r1) (4/5) r2) (1/5) r3)
      = ((16000 * k : ℤ) : ℚ) / 1000000 := by
    rw [simulate_fhe_mul, dec_enc, h2]
    have h : ((80000 * k : ℤ) : ℚ) / 1000000 * (1/5) * 1000000 = ((16000 * k : ℤ) : ℚ) := by
      push_cast
      ring
    rw [h, pyTrunc_intCast]
  rw [h3, h1]
  push_cast
  ring

lemma trigger_dbtrace_insert_or_read : ∀ op ∈ trigger_dbtrace, dbInsertOrRead op := by
  decide

lemma detect_dbtrace_insert_or_read (R : DetectRand) (tp : PyStr)
    (latest : List EncryptedPrice) : ∀ op ∈ detect_dbtrace R tp latest, dbInsertOrRead op := by
  intro op hop
  rcases List.mem_cons.mp hop with h | h
  · rw [h]; exact Or.inr (Or.inl rfl)
  · rcases List.mem_flatMap.mp h with ⟨o, ho, hmem⟩
    rcases List.mem_cons.mp hmem with h2 | h2
    · rw [h2]; exact Or.inl rfl
    · exact trigger_dbtrace_insert_or_read op h2

lemma monitor_dbtrace_insert_or_read (Rm : MonitorRand) (Rd : ℕ → DetectRand)
    (fetch : ℕ → List EncryptedPrice) :
    ∀ op ∈ monitor_dbtrace Rm Rd fetch, dbInsertOrRead op := by
  intro op hop
  rcases List.mem_flatMap.mp hop with ⟨kp, hkp, hmem⟩
  rcases List.mem_cons.mp hmem with h2 | h2
  · rw [h2]; exact Or.inl rfl
  · exact detect_dbtrace_insert_or_read _ _ _ op h2

lemma monitor_body_exc (R : MonitorRand) (fault : ℕ → Option PyExc) :
    (monitor_iteration_body R fault).2
      = match fault 0 with
        | some e => some e
        | none => match fault 1 with
          | some e => some e
          | none => fault 2 := by
  rw [monitor_iteration_body]
  cases h0 : fault 0 with
  | some e => simp [pools, List.enum, List.enumFrom, monitorGo, h0]
  | none =>
    cases h1 : fault 1 with
    | some e => simp [pools, List.enum, List.enumFrom, monitorGo, h0, h1]
    | none =>
      cases h2 : fault 2 with
      | some e => simp [pools, List.enum, List.enumFrom, monitorGo, h0, h1, h2]
      | none => simp [pools, List.enum, List.enumFrom, monitorGo, h0, h1, h2]

/-- C1, counterexample: simulated FHE decryption is not a left inverse of
encryption on all values; the value 1/10000000 (one tenth of a millionth)
encrypts to the digit string of int(0.1) = 0 and decrypts to 0, not to
itself. -/
theorem decrypt_encrypt_not_left_inverse :
    simulate_fhe_decrypt (simulate_fhe_encrypt (1/10000000) 1234) ≠ (1/10000000 : ℚ) := by
  rw [dec_enc]
  have h1 : ((1 : ℚ)/10000000) * 1000000 = 1/10 := by norm_num
  rw [h1]
  have h2 : pyTrunc (1/10) = 0 := by
    rw [pyTrunc_eq_floor _ (by norm_num)]
    norm_num [Int.floor_eq_iff]
  rw [h2]
  norm_num

/-- C1 (amended): decryption inverts encryption exactly on the values that
are an integer number of millionths (int(v * 1000000) loses nothing there);
the random four-digit suffix never affects the result.  In general
decryption returns the encrypted value truncated toward zero at six decimal
places (lemma dec_enc). -/
theorem decrypt_encrypt_exact_on_millionths (n : ℤ) (r : ℕ) :
    simulate_fhe_decrypt (simulate_fhe_encrypt ((n : ℚ)/1000000) r) = (n : ℚ)/1000000 := by
  rw [dec_enc]
  have h1 : ((n : ℚ)/1000000) * 1000000 = (n : ℚ) := by field_simp
  rw [h1, pyTrunc_intCast]

/-- C2: detect_arbitrage_opportunities considers every unordered pair of
fetched samples (specPairs lists all i < j in loop order) and records an
opportunity for a pair if and only if the venues differ and the decrypted
computed spread strictly exceeds the decrypted computed threshold (specFlag);
each flagged pair contributes exactly its own record, with no deduplication
and no tie-break at equality. -/
theorem detect_flags_iff_strict_spread (R : DetectRand) (tp : PyStr)
    (latest : List EncryptedPrice) :
    detect_arbitrage_opportunities R tp latest
      = ((specPairs latest.length).filter (specFlag R latest)).map
          (mkOpportunity R tp latest) := by
  rw [detect_arbitrage_opportunities]
  by_cases hlen : latest.length < 2
  · rw [if_pos hlen]
    obtain h0 | h1 : latest.length = 0 ∨ latest.length = 1 := by omega
    · rw [h0]; rfl
    · rw [h1]; rfl
  · rw [if_neg hlen]
    simp only [comparePair_eq]
    rw [← flatMap_ite_singleton (specPairs latest.length) (specFlag R latest)
      (mkOpportunity R tp latest)]
    rw [specPairs, List.flatMap_assoc]
    congr 1
    funext i
    rw [List.flatMap_map]

/-- C3: for every flagged opportunity the protection chain persists one
protection event and then exactly five reward records; each reward references
the event id, all five carry the same encrypted reward amount, and its
decrypted value is 80% of the decrypted captured-MEV figure divided by five
(the split is exact because every decrypted value is an integer number of
millionths and the volume factor 100000 keeps the chain integral). -/
theorem trigger_protection_reward_split (R : TriggerRand) (opp : ArbitrageOpportunity) :
    (trigger_protection R opp).2.length = 5 ∧
    (∀ k, k < 5 →
      ((trigger_protection R opp).2.getD k default).protection_event_id
          = (trigger_protection R opp).1.id ∧
      ((trigger_protection R opp).2.getD k default).encrypted_reward_amount
          = ((trigger_protection R opp).2.getD 0 default).encrypted_reward_amount ∧
      simulate_fhe_decrypt
          ((trigger_protection R opp).2.getD k default).encrypted_reward_amount
          = 4/5 * simulate_fhe_decrypt
              (trigger_protection R opp).1.encrypted_mev_captured / 5) := by
  constructor
  · simp [trigger_protection, distribute_lp_rewards]
  · intro k hk
    have hget : ∀ m, m < 5 → (trigger_protection R opp).2.getD m default
        = { id := R.rewardId m
            lp_address := hexAddr (R.lpAddr m)
            pool_id := "pool_".data ++ natStr (R.poolNum m)
            encrypted_reward_amount := simulate_fhe_mul
              (ArbitrageCalculations.calculate_lp_rewards
                (simulate_fhe_mul opp.encrypted_spread 100000 R.sufMev) R.sufLpTotal)
              (1/5) R.sufPerLp
            protection_event_id := R.eventId
            distribution_tx_hash := some (hexAddr (R.distTx m))
            claimed := false
            timestamp := R.rewardTs m } := by
      intro m hm
      rw [show (trigger_protection R opp).2 = distribute_lp_rewards R (trigger_protection R opp).1
        from rfl]
      rw [distribute_lp_rewards]
      rw [range5_map_getD _ m hm]
      rfl
    refine ⟨?_, ?_, ?_⟩
    · rw [hget k hk]
      rfl
    · rw [hget k hk, hget 0 (by omega)]
    · rw [hget k hk]
      show simulate_fhe_decrypt (simulate_fhe_mul (simulate_fhe_mul
          (simulate_fhe_mul opp.encrypted_spread 100000 R.sufMev) (4/5) R.sufLpTotal)
          (1/5) R.sufPerLp) = _
      rw [reward_chain_value]
      rfl

/-- C4, counterexample: the protection/reward chain is not deterministic
across runs.  Two runs on the same flagged opportunity whose random
transaction-hash draws differ (10^63 versus 10^63 + 1, both within the
randint(10^63, 10^64 - 1) range) persist different protection events. -/
theorem trigger_protection_not_run_deterministic :
    trigger_protection triggerRandA oppExample
      ≠ trigger_protection triggerRandB oppExample := by
  intro h
  have h2 : (trigger_protection triggerRandA oppExample).1.tx_hash
      = (trigger_protection triggerRandB oppExample).1.tx_hash := by rw [h]
  revert h2
  decide

/-- C4 (amended): the chain is a pure function of the opportunity and the
random draws, and all decrypted figures are independent of the draws: two
runs on the same flagged opportunity agree on the decrypted protection fee,
the decrypted captured-MEV figure, and the decrypted reward amounts (and on
the record counts); only the random ids, addresses, suffixes and transaction
hashes differ. -/
theorem trigger_protection_value_deterministic (R1 R2 : TriggerRand)
    (opp : ArbitrageOpportunity) :
    simulate_fhe_decrypt (trigger_protection R1 opp).1.encrypted_protection_fee
        = simulate_fhe_decrypt (trigger_protection R2 opp).1.encrypted_protection_fee ∧
    simulate_fhe_decrypt (trigger_protection R1 opp).1.encrypted_mev_captured
        = simulate_fhe_decrypt (trigger_protection R2 opp).1.encrypted_mev_captured ∧
    ((trigger_protection R1 opp).2.map fun lr => simulate_fhe_decrypt lr.encrypted_reward_amount)
        = ((trigger_protection R2 opp).2.map fun lr =>
            simulate_fhe_decrypt lr.encrypted_reward_amount) := by
  have hfee : ∀ R : TriggerRand, (trigger_protection R opp).1.encrypted_protection_fee
      = ArbitrageCalculations.calculate_protection_fee opp.encrypted_spread 100000
          (simulate_fhe_encrypt 3000 R.sufMaxFee) R.sufFee := fun _ => rfl
  have hmev : ∀ R : TriggerRand, (trigger_protection R opp).1.encrypted_mev_captured
      = simulate_fhe_mul opp.encrypted_spread 100000 R.sufMev := fun _ => rfl
  have h5 : ∀ R : TriggerRand,
      ((trigger_protection R opp).2.map fun lr => simulate_fhe_decrypt lr.encrypted_reward_amount)
        = (List.range 5).map (fun _ => simulate_fhe_decrypt (simulate_fhe_mul (simulate_fhe_mul
            (simulate_fhe_mul opp.encrypted_spread 100000 R.sufMev) (4/5) R.sufLpTotal)
            (1/5) R.sufPerLp)) := by
    intro R
    have hr : (trigger_protection R opp).2 = (List.range 5).map (fun m =>
        ({ id := R.rewardId m
           lp_address := hexAddr (R.lpAddr m)
           pool_id := "pool_".data ++ natStr (R.poolNum m)
           encrypted_reward_amount := simulate_fhe_mul
             (ArbitrageCalculations.calculate_lp_rewards
               (simulate_fhe_mul opp.encrypted_spread 100000 R.sufMev) R.sufLpTotal)
             (1/5) R.sufPerLp
           protection_event_id := R.eventId
           distribution_tx_hash := some (hexAddr (R.distTx m))
           claimed := false
           timestamp := R.rewardTs m } : LPReward)) := rfl
    rw [hr, List.map_map]
    rfl
  obtain ⟨k, hk⟩ := decrypt_mul_million opp.encrypted_spread
  refine ⟨?_, ?_, ?_⟩
  · rw [hfee R1, hfee R2, dec_calc_protection_fee, dec_calc_protection_fee]
    rw [show simulate_fhe_decrypt (simulate_fhe_encrypt 3000 R1.sufMaxFee)
        = (pyTrunc (3000 * 1000000) : ℚ) / 1000000 from dec_enc 3000 R1.sufMaxFee]
    rw [show simulate_fhe_decrypt (simulate_fhe_encrypt 3000 R2.sufMaxFee)
        = (pyTrunc (3000 * 1000000) : ℚ) / 1000000 from dec_enc 3000 R2.sufMaxFee]
  · rw [hmev R1, hmev R2, dec_mul_100000 opp.encrypted_spread k hk R1.sufMev,
      dec_mul_100000 opp.encrypted_spread k hk R2.sufMev]
  · rw [h5 R1, h5 R2]
    refine List.map_congr_left ?_
    intro m _
    rw [reward_chain_value, reward_chain_value]
    rw [dec_mul_100000 opp.encrypted_spread k hk R1.sufMev,
      dec_mul_100000 opp.encrypted_spread k hk R2.sufMev]

/-- C5: every (fault-free) iteration of the monitor loop persists exactly one
synthetic price sample per configured pool, in the fixed pool order
uniswap_v3, sushiswap, curve, and invokes opportunity detection for the
pool's trading pair immediately after persisting each sample. -/
theorem monitor_iteration_one_sample_per_pool (R : MonitorRand) :
    monitor_iteration R =
      [ MonitorEvent.insertPrice
          { id := R.priceId 0
            dex_name := DEXName.uniswap_v3
            pool_address := "0x88e6A0c2dDD26FEEb64F039a2c41296FcB3f5640".data
            token_pair := "ETH/USDC".data
            encrypted_price := simulate_fhe_encrypt (2000 + R.unif 0) (R.sufPrice 0)
            timestamp := R.priceTs 0
            block_number := R.blockNum 0 },
        MonitorEvent.detectCall ("ETH/USDC".data),
        MonitorEvent.insertPrice
          { id := R.priceId 1
            dex_name := DEXName.sushiswap
            pool_address := "0x397FF1542f962076d0BFE58eA045FfA2d347ACa0".data
            token_pair := "ETH/USDC".data
            encrypted_price := simulate_fhe_encrypt (2000 + R.unif 1) (R.sufPrice 1)
            timestamp := R.priceTs 1
            block_number := R.blockNum 1 },
        MonitorEvent.detectCall ("ETH/USDC".data),
        MonitorEvent.insertPrice
          { id := R.priceId 2
            dex_name := DEXName.curve
            pool_address := "0xA0b86a33E6417efF66b9b4A3e0C6e31d5F5dd9C7".data
            token_pair := "ETH/USDC".data
            encrypted_price := simulate_fhe_encrypt (2000 + R.unif 2) (R.sufPrice 2)
            timestamp := R.priceTs 2
            block_number := R.blockNum 2 },
        MonitorEvent.detectCall ("ETH/USDC".data) ] := rfl

/-- C6: the monitor loop is total over iteration indices (it always reaches
its next iteration), no exception escapes an iteration, and the chosen
backoff is 10 seconds exactly when some database insert of the iteration
raised (otherwise the normal 5-second interval). -/
theorem monitor_loop_error_containment (Rs : ℕ → MonitorRand)
    (faults : ℕ → ℕ → Option PyExc) (n : ℕ) :
    (monitor_loop_sleep Rs faults n = 5 ∨ monitor_loop_sleep Rs faults n = 10) ∧
    (monitor_loop_sleep Rs faults n = 10 ↔ ∃ k, k < 3 ∧ (faults n k).isSome = true) := by
  have hb := monitor_body_exc (Rs n) (faults n)
  rw [monitor_loop_sleep, monitor_iteration_step]
  cases h0 : faults n 0 with
  | some e =>
    rw [h0] at hb
    rw [hb]
    exact ⟨Or.inr rfl, ⟨fun _ => ⟨0, by omega, by rw [h0]; rfl⟩, fun _ => rfl⟩⟩
  | none =>
    rw [h0] at hb
    cases h1 : faults n 1 with
    | some e =>
      rw [h1] at hb
      rw [hb]
      exact ⟨Or.inr rfl, ⟨fun _ => ⟨1, by omega, by rw [h1]; rfl⟩, fun _ => rfl⟩⟩
    | none =>
      rw [h1] at hb
      cases h2 : faults n 2 with
      | some e =>
        rw [h2] at hb
        rw [hb]
        exact ⟨Or.inr rfl, ⟨fun _ => ⟨2, by omega, by rw [h2]; rfl⟩, fun _ => rfl⟩⟩
      | none =>
        rw [h2] at hb
        rw [hb]
        refine ⟨Or.inl rfl, ⟨fun h => absurd h (by norm_num), ?_⟩⟩
        rintro ⟨k, hk, hsome⟩
        interval_cases k
        · rw [h0] at hsome; exact absurd hsome (by simp)
        · rw [h1] at hsome; exact absurd hsome (by simp)
        · rw [h2] at hsome; exact absurd hsome (by simp)

/-- C7: every database call emitted by the monitor loop, the detector, the
protection/reward chain and every HTTP handler is an insert of a new
document or a read (find / count_documents); no trace contains an update or
delete operation, so persisted records are never mutated or deleted. -/
theorem stored_records_never_mutated (Rm : MonitorRand) (Rd : ℕ → DetectRand)
    (fetch : ℕ → List EncryptedPrice) (R : DetectRand) (tp : PyStr)
    (latest : List EncryptedPrice) :
    (∀ op ∈ monitor_dbtrace Rm Rd fetch, dbInsertOrRead op) ∧
    (∀ op ∈ detect_dbtrace R tp latest, dbInsertOrRead op) ∧
    (∀ op ∈ trigger_dbtrace, dbInsertOrRead op) ∧
    (∀ op ∈ get_dashboard_dbtrace, dbInsertOrRead op) ∧
    (∀ op ∈ get_latest_prices_dbtrace, dbInsertOrRead op) ∧
    (∀ op ∈ get_arbitrage_opportunities_dbtrace, dbInsertOrRead op) ∧
    (∀ op ∈ get_protection_events_dbtrace, dbInsertOrRead op) ∧
    (∀ op ∈ get_lp_rewards_dbtrace, dbInsertOrRead op) ∧
    (∀ op ∈ get_statistics_dbtrace, dbInsertOrRead op) :=
  ⟨monitor_dbtrace_insert_or_read Rm Rd fetch,
    detect_dbtrace_insert_or_read R tp latest,
    trigger_dbtrace_insert_or_read,
    by decide, by decide, by decide, by decide, by decide, by decide⟩

/-- C7 witness: a concrete operation of the reward-distribution trace is an
insert. -/
theorem stored_records_never_mutated_witness :
    (⟨Coll.lp_rewards, DBKind.insertOne⟩ : DBCall) ∈ trigger_dbtrace ∧
    dbInsertOrRead ⟨Coll.lp_rewards, DBKind.insertOne⟩ :=
  ⟨by decide,
    (stored_records_never_mutated mRand0 (fun _ => dRand0) (fun _ => []) dRand0 [] []).2.2.1
      ⟨Coll.lp_rewards, DBKind.insertOne⟩ (by decide)⟩

/-- C8: every HTTP handler converts any internal failure into the generic
HTTPException(500, "Internal server error") and passes successes through
unchanged (shown for the shared handler boundary and for the /api/prices
handler), while a failure inside a monitor-loop iteration is logged and
silently skipped: the iteration keeps the events persisted before the
failure and the loop continues with the 10-second backoff. -/
theorem handler_500_loop_skip :
    (∀ (α : Type) (body : Except PyExc α) (v : α),
        body = Except.ok v → handler_boundary body = Except.ok v) ∧
    (∀ (α : Type) (body : Except PyExc α) (e : PyExc),
        body = Except.error e →
          handler_boundary body = Except.error ⟨500, "Internal server error".data⟩) ∧
    (∀ (dbRes : Except PyExc (List EncryptedPrice)) (e : PyExc),
        dbRes = Except.error e →
          get_latest_prices dbRes = Except.error ⟨500, "Internal server error".data⟩) ∧
    (∀ (R : MonitorRand) (fault : ℕ → Option PyExc) (e : PyExc),
        (monitor_iteration_body R fault).2 = some e →
          monitor_iteration_step R fault = ((monitor_iteration_body R fault).1, 10)) := by
  refine ⟨?_, ?_, ?_, ?_⟩
  · intro α body v h
    rw [h, handler_boundary]
  · intro α body e h
    rw [h, handler_boundary]
  · intro dbRes e h
    rw [get_latest_prices, h, handler_boundary]
  · intro R fault e h
    rw [monitor_iteration_step, h]

/-- C8 witness: a failing database fetch makes /api/prices answer the
generic 500 error. -/
theorem handler_500_loop_skip_witness :
    (Except.error (PyExc.err []) : Except PyExc (List EncryptedPrice))
        = Except.error (PyExc.err []) ∧
    get_latest_prices (Except.error (PyExc.err []))
        = Except.error ⟨500, "Internal server error".data⟩ :=
  ⟨rfl, handler_500_loop_skip.2.2.1 (Except.error (PyExc.err [])) (PyExc.err []) rfl⟩

/-- C9: simulate_fhe_decrypt is total (it is a function into the rationals)
and falls back to 0.0 on every input that does not match the encryption
format: fewer than three underscore-separated parts, or a third part that
Python int() rejects. -/
theorem decrypt_total_fallback (s : PyStr) :
    ((pySplit '_' s).length < 3 → simulate_fhe_decrypt s = 0) ∧
    (pyInt? ((pySplit '_' s).getD 2 []) = none → simulate_fhe_decrypt s = 0) := by
  constructor
  · intro h
    rw [simulate_fhe_decrypt]
    simp only [if_neg (by omega : ¬ 3 ≤ (pySplit '_' s).length)]
  · intro h
    rw [simulate_fhe_decrypt]
    by_cases h3 : 3 ≤ (pySplit '_' s).length
    · simp only [if_pos h3, h]
    · simp only [if_neg h3]

/-- C9 witness: a plain word has a single part and decrypts to 0. -/
theorem decrypt_total_fallback_witness :
    (pySplit '_' ("hello".data)).length < 3 ∧ simulate_fhe_decrypt ("hello".data) = 0 :=
  ⟨by decide, (decrypt_total_fallback ("hello".data)).1 (by decide)⟩

/-- C10: for every encrypted spread, positive volume and encrypted max fee,
the decrypted protection fee is at most the decrypted max fee, and it never
exceeds 0.3% of the volume (the fee rate is capped by min(0.003, _) and the
cap branch only lowers the fee further). -/
theorem protection_fee_capped (spread max_fee : PyStr) (volume : ℚ) (r : ℕ)
    (hv : 0 < volume) :
    simulate_fhe_decrypt
        (ArbitrageCalculations.calculate_protection_fee spread volume max_fee r)
      ≤ simulate_fhe_decrypt max_fee ∧
    simulate_fhe_decrypt
        (ArbitrageCalculations.calculate_protection_fee spread volume max_fee r)
      ≤ 0.003 * volume := by
  rw [dec_calc_protection_fee]
  have hrate : min 0.003 (simulate_fhe_decrypt spread * 0.1) ≤ 0.003 := min_le_left _ _
  have hpfle : (pyTrunc (volume * min 0.003 (simulate_fhe_decrypt spread * 0.1) * 1000000) : ℚ)
      / 1000000 ≤ 0.003 * volume := by
    rcases le_or_lt 0 (volume * min 0.003 (simulate_fhe_decrypt spread * 0.1) * 1000000)
      with hx | hx
    · have h1 := pyTrunc_cast_le _ hx
      have h2 : volume * min 0.003 (simulate_fhe_decrypt spread * 0.1) ≤ 0.003 * volume := by
        calc volume * min 0.003 (simulate_fhe_decrypt spread * 0.1)
            ≤ volume * 0.003 := mul_le_mul_of_nonneg_left hrate hv.le
          _ = 0.003 * volume := mul_comm _ _
      linarith
    · have h1 := pyTrunc_cast_nonpos _ hx
      have h2 : (0 : ℚ) < 0.003 * volume := by positivity
      linarith
  constructor
  · split_ifs with h
    · exact le_refl _
    · exact le_of_not_lt h
  · split_ifs with h
    · linarith
    · exact hpfle

/-- C10 witness: concrete inputs with positive volume. -/
theorem protection_fee_capped_witness :
    (0 : ℚ) < 100000 ∧
    (simulate_fhe_decrypt
        (ArbitrageCalculations.calculate_protection_fee ("fhe_enc_2500_1111".data) 100000
          ("fhe_enc_3000000000_2222".data) 4321)
      ≤ simulate_fhe_decrypt ("fhe_enc_3000000000_2222".data) ∧
    simulate_fhe_decrypt
        (ArbitrageCalculations.calculate_protection_fee ("fhe_enc_2500_1111".data) 100000
          ("fhe_enc_3000000000_2222".data) 4321)
      ≤ 0.003 * 100000) :=
  ⟨by decide,
    protection_fee_capped ("fhe_enc_2500_1111".data) ("fhe_enc_3000000000_2222".data)
      100000 4321 (by decide)⟩

/-- C6 witness: a fault-free iteration sleeps the normal 5 seconds. -/
theorem monitor_loop_error_containment_witness :
    (monitor_loop_sleep (fun _ => mRand0) (fun _ _ => none) 0 = 5 ∨
      monitor_loop_sleep (fun _ => mRand0) (fun _ _ => none) 0 = 10) ∧
    (monitor_loop_sleep (fun _ => mRand0) (fun _ _ => none) 0 = 10 ↔
      ∃ k, k < 3 ∧ ((fun (_ : ℕ) => (none : Option PyExc)) k).isSome = true) :=
  monitor_loop_error_containment (fun _ => mRand0) (fun _ _ => none) 0

/-- C3 witness: the concrete chain run yields five rewards and the exact
split for the first reward. -/
theorem trigger_protection_reward_split_witness :
    (trigger_protection tRand0 oppExample).2.length = 5 ∧
    ((0 : ℕ) < 5 ∧
      ((trigger_protection tRand0 oppExample).2.getD 0 default).protection_event_id
          = (trigger_protection tRand0 oppExample).1.id ∧
      ((trigger_protection tRand0 oppExample).2.getD 0 default).encrypted_reward_amount
          = ((trigger_protection tRand0 oppExample).2.getD 0 default).encrypted_reward_amount ∧
      simulate_fhe_decrypt
          ((trigger_protection tRand0 oppExample).2.getD 0 default).encrypted_reward_amount
          = 4/5 * simulate_fhe_decrypt
              (trigger_protection tRand0 oppExample).1.encrypted_mev_captured / 5) :=
  ⟨(trigger_protection_reward_split tRand0 oppExample).1,
    by decide,
    (trigger_protection_reward_split tRand0 oppExample).2 0 (by decide)⟩

/-- C1 witness for the amended theorem: the value 3/2 is 1500000 millionths
and survives the round trip. -/
theorem decrypt_encrypt_exact_on_millionths_witness :
    simulate_fhe_decrypt (simulate_fhe_encrypt (((1500000 : ℤ) : ℚ)/1000000) 4321)
      = ((1500000 : ℤ) : ℚ)/1000000 :=
  decrypt_encrypt_exact_on_millionths 1500000 4321

